import Mathlib

/-!
Shallow embedding of the Alces PDF Merger workspace core
(`src/unnamed/part_001`, the React `App` component): data model,
ingestion pipeline (`renderThumbnails`, `ingestFile`, `handleFiles`),
workspace mutations (`deleteDoc`, `deletePage`, `resetWorkspace`,
`onDragEnd` with dnd-kit's `arrayMove`) and the export resolver
(`mergeAndDownload` with its `docLookup` map and `loadedDocs` cache).

External collaborators (pdfjs decode/render, pdf-lib, nanoid) are
modelled as explicit parameters: the decoder is a function from byte
payloads to an optional list of per-page render outcomes (`none`
models a decode throw, a `fail` outcome models a render throw), and
nanoid's output is threaded in as an explicit id plan.
-/

namespace Alces

/-- Record `SourceDoc` from the source (one uploaded file). -/
structure SourceDoc where
  id : String
  name : String
  size : Nat
  lastModified : Nat
  pageCount : Nat
  data : List Nat
  addedAt : Nat
deriving DecidableEq, Repr

/-- Record `PageItem` from the source (one page's placement in the order). -/
structure PageItem where
  id : String
  docId : String
  docName : String
  pageNumber : Nat
  thumbnail : String
deriving DecidableEq, Repr

/-- The two React state arrays `docs` and `pages` that make up the workspace. -/
structure Workspace where
  docs : List SourceDoc
  pages : List PageItem
deriving DecidableEq, Repr

/-- One uploaded `File` as seen by `handleFiles`: name, MIME type,
size, lastModified, and the bytes returned by `file.arrayBuffer()`. -/
structure UploadFile where
  name : String
  ftype : String
  size : Nat
  lastModified : Nat
  bytes : List Nat
deriving DecidableEq, Repr

/-- Outcome of the pdfjs render pipeline for one page: either a
thumbnail data-URL, or a throw (canvas context missing / render task
rejection) inside the `renderThumbnails` loop body. -/
inductive RenderOutcome where
  | ok (thumb : String)
  | fail
deriving DecidableEq, Repr

/-- The pdfjs document decoder `getDocument(...).promise`, as an oracle
from byte payloads to the decoded document: `none` models a decode
throw, `some outcomes` a document whose pages render as `outcomes`
(so `numPages = outcomes.length`). -/
abbrev Decoder := List Nat → Option (List RenderOutcome)

/-- The `renderThumbnails` loop: walks pages `k, k+1, ...` in document
order, building one `PageItem` per page; a failing render throws,
aborting the whole call (modelled as `Except.error`). Fresh nanoid
page ids are consumed from `ids`. -/
def renderThumbnails : List RenderOutcome → List String → String → String → Nat →
    Except Unit (List PageItem)
  | [], _, _, _, _ => Except.ok []
  | RenderOutcome.fail :: _, _, _, _, _ => Except.error ()
  | RenderOutcome.ok thumb :: rest, ids, docId, docName, k =>
    match renderThumbnails rest ids.tail docId docName (k + 1) with
    | Except.error e => Except.error e
    | Except.ok items =>
      Except.ok ({ id := ids.headD "", docId := docId, docName := docName,
                   pageNumber := k, thumbnail := thumb } :: items)

/-- Source `ingestFile`: reads the bytes, decodes (throws on malformed input),
renders every thumbnail, and builds the `SourceDoc` whose `data` is the
stable storage copy of the uploaded bytes and whose `pageCount` is
`pdf.numPages`. `docId` and `pageIds` stand for the nanoid calls. -/
def ingestFile (decodePdf : Decoder) (file : UploadFile) (docId : String)
    (pageIds : List String) (now : Nat) : Except Unit (SourceDoc × List PageItem) :=
  match decodePdf file.bytes with
  | none => Except.error ()
  | some pdfPages =>
    match renderThumbnails pdfPages pageIds docId file.name 1 with
    | Except.error e => Except.error e
    | Except.ok thumbs =>
      Except.ok ({ id := docId, name := file.name, size := file.size,
                   lastModified := file.lastModified, pageCount := pdfPages.length,
                   data := file.bytes, addedAt := now }, thumbs)

/-- The PDF filter in `handleFiles`: MIME type `application/pdf` or a
name whose lowercasing ends in `.pdf`. -/
def isPdf (file : UploadFile) : Bool :=
  file.ftype == "application/pdf" || file.name.toLower.endsWith ".pdf"

/-- The `for (const file of incoming)` loop body of `handleFiles`:
ingests files in order, accumulating `processedDocs`/`processedPages`;
the first throw aborts the whole loop (propagating to the `catch`).
`idPlan` supplies one `(docId, pageIds)` pair of nanoid results per file. -/
def ingestBatchLoop (decodePdf : Decoder) (now : Nat) :
    List UploadFile → List (String × List String) →
    Except Unit (List SourceDoc × List PageItem)
  | [], _ => Except.ok ([], [])
  | f :: fs, idPlan =>
    match ingestFile decodePdf f (idPlan.headD ("", [])).1 (idPlan.headD ("", [])).2 now with
    | Except.error e => Except.error e
    | Except.ok (d, ps) =>
      match ingestBatchLoop decodePdf now fs idPlan.tail with
      | Except.error e => Except.error e
      | Except.ok (ds, pss) => Except.ok (d :: ds, ps ++ pss)

/-- Observable outcome of one `handleFiles` call: the early return with
the "Drop PDF files to get started" hint, the `catch` branch with the
"There was an issue reading one of the PDFs" warning toast, or the
success toast reporting how many PDFs were added. -/
inductive BatchOutcome where
  | noPdfs
  | batchFailed
  | added (count : Nat)
deriving DecidableEq, Repr

/-- Source `handleFiles`: filters the upload to PDFs, ingests them in order,
and only on success of the whole loop appends all processed docs and
pages to the workspace; any throw anywhere in the loop lands in the
`catch`, leaving the workspace untouched and toasting a warning. -/
def handleFiles (decodePdf : Decoder) (now : Nat) (w : Workspace)
    (files : List UploadFile) (idPlan : List (String × List String)) :
    Workspace × BatchOutcome :=
  let incoming := files.filter isPdf
  if incoming.isEmpty then (w, BatchOutcome.noPdfs)
  else
    match ingestBatchLoop decodePdf now incoming idPlan with
    | Except.error _ => (w, BatchOutcome.batchFailed)
    | Except.ok (ds, ps) =>
      ({ docs := w.docs ++ ds, pages := w.pages ++ ps }, BatchOutcome.added ds.length)

/-- Source `deleteDoc`: drops the doc with the given id and every page owned by it. -/
def deleteDoc (w : Workspace) (docId : String) : Workspace :=
  { docs := w.docs.filter (fun d => d.id != docId),
    pages := w.pages.filter (fun p => p.docId != docId) }

/-- Source `deletePage`: drops the single page with the given id. -/
def deletePage (w : Workspace) (pageId : String) : Workspace :=
  { w with pages := w.pages.filter (fun p => p.id != pageId) }

/-- Source `resetWorkspace`: clears both arrays (and the persisted snapshot). -/
def resetWorkspace : Workspace := { docs := [], pages := [] }

/-- dnd-kit's `arrayMove`: splice the element out at `i`, splice it
back in at `j`. Call sites guarantee `i` is in range (it comes from a
successful `findIndex`); out-of-range `i` is a no-op here. -/
def arrayMove (l : List PageItem) (i j : Nat) : List PageItem :=
  match l.get? i with
  | none => l
  | some x => (l.eraseIdx i).insertIdx j x

/-- Source `onDragEnd`: no-op when dropped on itself or when either index
lookup fails (`findIndex === -1`); otherwise a single-element move. -/
def onDragEnd (pages : List PageItem) (activeId overId : String) : List PageItem :=
  if activeId == overId then pages
  else
    match pages.findIdx? (fun p => p.id == activeId),
          pages.findIdx? (fun p => p.id == overId) with
    | some oldIndex, some newIndex => arrayMove pages oldIndex newIndex
    | _, _ => pages

/-- Source `docLookup`: the memoized `Map` built from `docs.map(doc => [doc.id, doc])`
(later insertions win on duplicate keys), queried with `.get`. -/
def docLookup (docs : List SourceDoc) (docId : String) : Option SourceDoc :=
  docs.foldl (fun acc d => if d.id == docId then some d else acc) none

/-- One page copied into the composed output: identified by the source
document's byte payload and the 0-based index handed to `copyPages`. -/
structure CopiedPage where
  srcData : List Nat
  srcIndex : Nat
deriving DecidableEq, Repr

/-- State threaded through the merge loop: the keys currently in the
`loadedDocs` map, the trace of `PDFDocument.load` calls made so far,
and the pages appended to `composed` so far. -/
structure ComposeState where
  cache : List String
  loads : List String
  out : List CopiedPage
deriving DecidableEq, Repr

/-- One iteration of the `for (const page of pages)` merge loop:
missing source documents are skipped (`continue`); otherwise the
decoded handle is fetched from the cache or loaded (recording the
load) and the page at `pageNumber - 1` is copied and appended. -/
def composeStep (docs : List SourceDoc) (st : ComposeState) (page : PageItem) :
    ComposeState :=
  match docLookup docs page.docId with
  | none => st
  | some source =>
    let st1 := if st.cache.contains page.docId then st
      else { st with cache := st.cache ++ [page.docId],
                     loads := st.loads ++ [page.docId] }
    { st1 with out := st1.out ++ [⟨source.data, page.pageNumber - 1⟩] }

/-- The whole merge loop, starting from an empty composed document and
an empty `loadedDocs` cache. -/
def composeLoop (docs : List SourceDoc) (pages : List PageItem) : ComposeState :=
  pages.foldl (composeStep docs) ⟨[], [], []⟩

/-- Character class of the sanitizer's `\s` (the ASCII whitespace the
regex matches on these filenames). -/
def isWs (c : Char) : Bool :=
  c == ' ' || c == '\t' || c == '\n' || c == '\r' || c == '\x0b' || c == '\x0c'

/-- Model of `replace(/\s+/g, '-')`: each maximal run of whitespace becomes a
single hyphen. `prevWs` records whether the previous character was
part of a run already replaced. -/
def replaceWsAux : List Char → Bool → List Char
  | [], _ => []
  | c :: cs, prevWs =>
    if isWs c then
      (if prevWs then [] else ['-']) ++ replaceWsAux cs true
    else c :: replaceWsAux cs false

/-- Source `safeName`: `(outputName || 'merged-document').replace(/\s+/g, '-')`. -/
def safeName (outputName : String) : String :=
  String.mk (replaceWsAux (if outputName == "" then "merged-document" else outputName).data false)

/-- Observable outcome of one `mergeAndDownload` call: the guard's
early return (no toast, no file), the `catch` branch ("Unable to
compose PDF right now", no file), or one downloaded file with its
name and composed page sequence. -/
inductive MergeOutcome where
  | idle
  | composeFailed
  | downloaded (filename : String) (out : List CopiedPage)
deriving DecidableEq, Repr

/-- Source `mergeAndDownload`: early return on an empty page list; otherwise
runs the merge loop, saves, and offers exactly one download named
`safeName + ".pdf"`. `saveFails` models a throw from the external
pdf-lib save/copy machinery, landing in the `catch`. -/
def mergeAndDownload (docs : List SourceDoc) (pages : List PageItem)
    (outputName : String) (saveFails : Bool) : MergeOutcome :=
  if pages.isEmpty then MergeOutcome.idle
  else if saveFails then MergeOutcome.composeFailed
  else MergeOutcome.downloaded (safeName outputName ++ ".pdf") (composeLoop docs pages).out

/-- The workspace invariant (spec §3): every page's owning-document id
resolves to a document in the set, and page ids are duplicate-free. -/
def Inv (w : Workspace) : Prop :=
  (∀ p ∈ w.pages, ∃ d ∈ w.docs, d.id = p.docId) ∧
  (w.pages.map PageItem.id).Nodup

instance (w : Workspace) : Decidable (Inv w) := by
  unfold Inv; infer_instance

/-- One workspace mutation, as fired by the UI handlers. The `add`
constructor carries the nanoid freshness guarantee for the ids minted
during a successful ingestion: they are duplicate-free and distinct
from every page id already in the workspace. -/
inductive WStep (decodePdf : Decoder) (now : Nat) : Workspace → Workspace → Prop
  | add {w : Workspace} (files : List UploadFile) (idPlan : List (String × List String))
      (hfresh : ∀ ds ps, ingestBatchLoop decodePdf now (files.filter isPdf) idPlan =
          Except.ok (ds, ps) →
        (ps.map PageItem.id).Nodup ∧
          ∀ i ∈ ps.map PageItem.id, i ∉ w.pages.map PageItem.id) :
      WStep decodePdf now w (handleFiles decodePdf now w files idPlan).1
  | removeDoc {w : Workspace} (docId : String) :
      WStep decodePdf now w (deleteDoc w docId)
  | removePage {w : Workspace} (pageId : String) :
      WStep decodePdf now w (deletePage w pageId)
  | reorder {w : Workspace} (activeId overId : String) :
      WStep decodePdf now w { w with pages := onDragEnd w.pages activeId overId }
  | reset {w : Workspace} :
      WStep decodePdf now w resetWorkspace

/-! ### Helper lemmas -/

theorem foldl_composeStep_out (docs : List SourceDoc) (pages : List PageItem) :
    ∀ st : ComposeState, (pages.foldl (composeStep docs) st).out =
      st.out ++ pages.filterMap (fun p => (docLookup docs p.docId).map
        (fun d => CopiedPage.mk d.data (p.pageNumber - 1))) := by
  induction pages with
  | nil => intro st; simp
  | cons p ps ih =>
    intro st
    cases h : docLookup docs p.docId with
    | none => simp [List.foldl_cons, List.filterMap_cons, composeStep, h, ih]
    | some d =>
      by_cases hc : p.docId ∈ st.cache <;>
        simp [List.foldl_cons, List.filterMap_cons, composeStep, h, hc, ih]

theorem foldl_composeStep_loads (docs : List SourceDoc) (pages : List PageItem) :
    ∀ st : ComposeState, st.loads = st.cache → st.cache.Nodup →
      (pages.foldl (composeStep docs) st).loads =
        (pages.foldl (composeStep docs) st).cache ∧
      (pages.foldl (composeStep docs) st).cache.Nodup ∧
      ∀ i ∈ (pages.foldl (composeStep docs) st).loads,
        i ∈ st.loads ∨ ∃ p ∈ pages, p.docId = i := by
  induction pages with
  | nil =>
    intro st h1 h2
    exact ⟨h1, h2, fun i hi => Or.inl hi⟩
  | cons p ps ih =>
    intro st h1 h2
    cases hd : docLookup docs p.docId with
    | none =>
      obtain ⟨g1, g2, g3⟩ := ih st h1 h2
      refine ⟨?_, ?_, ?_⟩ <;> simp only [List.foldl_cons, composeStep, hd]
      · exact g1
      · exact g2
      · intro i hi
        rcases g3 i hi with h | ⟨q, hq, he⟩
        · exact Or.inl h
        · exact Or.inr ⟨q, List.mem_cons_of_mem _ hq, he⟩
    | some d =>
      by_cases hc : p.docId ∈ st.cache
      · have hstep : composeStep docs st p =
            { st with out := st.out ++ [⟨d.data, p.pageNumber - 1⟩] } := by
          simp [composeStep, hd, hc]
        obtain ⟨g1, g2, g3⟩ :=
          ih { st with out := st.out ++ [⟨d.data, p.pageNumber - 1⟩] } h1 h2
        refine ⟨?_, ?_, ?_⟩ <;> simp only [List.foldl_cons, hstep]
        · exact g1
        · exact g2
        · intro i hi
          rcases g3 i hi with h | ⟨q, hq, he⟩
          · exact Or.inl h
          · exact Or.inr ⟨q, List.mem_cons_of_mem _ hq, he⟩
      · have hstep : composeStep docs st p =
            { cache := st.cache ++ [p.docId], loads := st.loads ++ [p.docId],
              out := st.out ++ [⟨d.data, p.pageNumber - 1⟩] } := by
          simp [composeStep, hd, hc]
        have hnd : (st.cache ++ [p.docId]).Nodup := by
          simp [List.nodup_append, h2, hc]
        obtain ⟨g1, g2, g3⟩ :=
          ih { cache := st.cache ++ [p.docId], loads := st.loads ++ [p.docId],
               out := st.out ++ [⟨d.data, p.pageNumber - 1⟩] } (by simp [h1]) hnd
        refine ⟨?_, ?_, ?_⟩ <;> simp only [List.foldl_cons, hstep]
        · exact g1
        · exact g2
        · intro i hi
          rcases g3 i hi with h | ⟨q, hq, he⟩
          · rcases List.mem_append.mp h with h | h
            · exact Or.inl h
            · exact Or.inr ⟨p, List.mem_cons_self _ _, (List.mem_singleton.mp h).symm⟩
          · exact Or.inr ⟨q, List.mem_cons_of_mem _ hq, he⟩

theorem replaceWsAux_no_ws :
    ∀ (l : List Char) (b : Bool), ∀ c ∈ replaceWsAux l b, isWs c = false := by
  intro l
  induction l with
  | nil => intro b c hc; simp [replaceWsAux] at hc
  | cons a as ih =>
    intro b c hc
    by_cases h : isWs a
    · simp only [replaceWsAux, if_pos h] at hc
      rcases List.mem_append.mp hc with h1 | h1
      · cases b with
        | true => simp at h1
        | false =>
          rw [List.mem_singleton.mp h1]
          decide
      · exact ih true c h1
    · simp only [replaceWsAux, if_neg h] at hc
      rcases List.mem_cons.mp hc with h1 | h1
      · rw [h1]; exact Bool.of_not_eq_true h
      · exact ih false c h1

theorem perm_insertIdx {α : Type _} (a : α) :
    ∀ (n : Nat) (l : List α), n ≤ l.length → (l.insertIdx n a).Perm (a :: l) := by
  intro n
  induction n with
  | zero =>
    intro l _
    rw [List.insertIdx_zero]
  | succ n ih =>
    intro l h
    cases l with
    | nil => simp at h
    | cons b t =>
      rw [List.insertIdx_succ_cons]
      exact (List.Perm.cons b (ih t (Nat.le_of_succ_le_succ h))).trans
        (List.Perm.swap a b t)

theorem perm_cons_eraseIdx {α : Type _} :
    ∀ (l : List α) (i : Nat) (x : α), l.get? i = some x → l.Perm (x :: l.eraseIdx i) := by
  intro l
  induction l with
  | nil => intro i x h; simp at h
  | cons b t ih =>
    intro i x h
    cases i with
    | zero =>
      simp only [List.get?_cons_zero, Option.some.injEq] at h
      subst h
      rw [List.eraseIdx_cons_zero]
    | succ i =>
      have h' : t.get? i = some x := by simpa using h
      rw [List.eraseIdx_cons_succ]
      exact (List.Perm.cons b (ih i x h')).trans (List.Perm.swap x b _)

theorem filter_insertIdx_of_neg {α : Type _} (p : α → Bool) (a : α) (ha : p a = false) :
    ∀ (n : Nat) (l : List α), (l.insertIdx n a).filter p = l.filter p := by
  intro n
  induction n with
  | zero => intro l; simp [List.insertIdx_zero, List.filter_cons, ha]
  | succ n ih =>
    intro l
    cases l with
    | nil => simp
    | cons b t => simp [List.insertIdx_succ_cons, List.filter_cons, ih]

theorem filter_eraseIdx_of_neg {α : Type _} (p : α → Bool) :
    ∀ (l : List α) (i : Nat) (x : α), l.get? i = some x → p x = false →
      (l.eraseIdx i).filter p = l.filter p := by
  intro l
  induction l with
  | nil => intro i x h _; simp at h
  | cons b t ih =>
    intro i x h hp
    cases i with
    | zero =>
      simp only [List.get?_cons_zero, Option.some.injEq] at h
      subst h
      simp [List.eraseIdx_cons_zero, List.filter_cons, hp]
    | succ i =>
      have h' : t.get? i = some x := by simpa using h
      rw [List.eraseIdx_cons_succ]
      simp only [List.filter_cons]
      rw [ih i x h' hp]

theorem get?_of_findIdx? {α : Type _} {p : α → Bool} {l : List α} {i : Nat}
    (h : l.findIdx? p = some i) : ∃ x, l.get? i = some x ∧ p x = true := by
  rw [List.findIdx?_eq_some_iff_getElem] at h
  obtain ⟨hlt, hp, _⟩ := h
  exact ⟨l.get ⟨i, hlt⟩, by rw [List.get?_eq_getElem?, List.getElem?_eq_getElem hlt]; rfl,
    by simpa using hp⟩

theorem findIdx?_lt_length {α : Type _} {p : α → Bool} {l : List α} {i : Nat}
    (h : l.findIdx? p = some i) : i < l.length := by
  rw [List.findIdx?_eq_some_iff_findIdx_eq] at h
  exact h.1

theorem arrayMove_perm (l : List PageItem) (i j : Nat) (hj : j < l.length) :
    (arrayMove l i j).Perm l := by
  unfold arrayMove
  cases h : l.get? i with
  | none => exact List.Perm.refl l
  | some x =>
    have hi : i < l.length := List.get?_eq_some.mp h |>.choose
    have hlen : (l.eraseIdx i).length = l.length - 1 := by
      rw [List.length_eraseIdx]
      simp [hi]
    have hj' : j ≤ (l.eraseIdx i).length := by omega
    exact (perm_insertIdx x j _ hj').trans (perm_cons_eraseIdx l i x h).symm

theorem arrayMove_filter (l : List PageItem) (i j : Nat) (x : PageItem)
    (p : PageItem → Bool) (h : l.get? i = some x) (hp : p x = false) :
    (arrayMove l i j).filter p = l.filter p := by
  unfold arrayMove
  rw [h, filter_insertIdx_of_neg p x hp j _, filter_eraseIdx_of_neg p l i x h hp]

theorem onDragEnd_perm (pages : List PageItem) (activeId overId : String) :
    (onDragEnd pages activeId overId).Perm pages := by
  unfold onDragEnd
  by_cases hao : activeId = overId
  · simp [hao]
  · rw [if_neg (by simpa using hao)]
    cases ha : pages.findIdx? (fun p => p.id == activeId) with
    | none => exact List.Perm.refl pages
    | some i =>
      cases ho : pages.findIdx? (fun p => p.id == overId) with
      | none => exact List.Perm.refl pages
      | some j => exact arrayMove_perm pages i j (findIdx?_lt_length ho)

theorem renderThumbnails_fail :
    ∀ (outs : List RenderOutcome) (ids : List String) (docId docName : String) (k : Nat),
      RenderOutcome.fail ∈ outs →
      renderThumbnails outs ids docId docName k = Except.error () := by
  intro outs
  induction outs with
  | nil => intro ids docId docName k h; simp at h
  | cons o os ih =>
    intro ids docId docName k h
    cases o with
    | fail => rfl
    | ok thumb =>
      have hm : RenderOutcome.fail ∈ os := by
        rcases List.mem_cons.mp h with h1 | h1
        · exact absurd h1.symm (by simp)
        · exact h1
      simp only [renderThumbnails, ih ids.tail docId docName (k + 1) hm]

theorem renderThumbnails_ok_spec :
    ∀ (outs : List RenderOutcome) (ids : List String) (docId docName : String) (k : Nat),
      (∀ o ∈ outs, o ≠ RenderOutcome.fail) → ids.length = outs.length →
      ∃ items, renderThumbnails outs ids docId docName k = Except.ok items ∧
        items.map PageItem.id = ids ∧
        items.map PageItem.docId = List.replicate outs.length docId ∧
        items.map PageItem.pageNumber = List.range' k outs.length := by
  intro outs
  induction outs with
  | nil =>
    intro ids docId docName k _ hlen
    rw [List.length_eq_zero.mp hlen]
    exact ⟨[], rfl, rfl, rfl, rfl⟩
  | cons o os ih =>
    intro ids docId docName k hok hlen
    cases o with
    | fail => exact absurd rfl (hok _ (List.mem_cons_self _ _))
    | ok thumb =>
      cases ids with
      | nil => simp at hlen
      | cons id0 idt =>
        have hlen' : idt.length = os.length := by simpa using hlen
        obtain ⟨items, hrec, h1, h2, h3⟩ :=
          ih idt docId docName (k + 1) (fun o ho => hok o (List.mem_cons_of_mem _ ho)) hlen'
        refine ⟨{ id := id0, docId := docId, docName := docName,
                  pageNumber := k, thumbnail := thumb } :: items, ?_, ?_, ?_, ?_⟩
        · simp only [renderThumbnails, List.tail_cons, List.headD_cons, hrec]
        · simp [h1]
        · simp [h2, List.replicate_succ]
        · simp [h3, List.range'_succ]

theorem renderThumbnails_docId :
    ∀ (outs : List RenderOutcome) (ids : List String) (docId docName : String) (k : Nat)
      (items : List PageItem),
      renderThumbnails outs ids docId docName k = Except.ok items →
      ∀ p ∈ items, p.docId = docId := by
  intro outs
  induction outs with
  | nil =>
    intro ids docId docName k items h p hp
    simp only [renderThumbnails, Except.ok.injEq] at h
    subst h
    simp at hp
  | cons o os ih =>
    intro ids docId docName k items h p hp
    cases o with
    | fail => cases h
    | ok thumb =>
      simp only [renderThumbnails] at h
      cases hrec : renderThumbnails os ids.tail docId docName (k + 1) with
      | error e => rw [hrec] at h; cases h
      | ok its =>
        rw [hrec] at h
        simp only [Except.ok.injEq] at h
        subst h
        rcases List.mem_cons.mp hp with h1 | h1
        · rw [h1]
        · exact ih ids.tail docId docName (k + 1) its hrec p h1

theorem ingestFile_docId (decodePdf : Decoder) (f : UploadFile) (docId : String)
    (pageIds : List String) (now : Nat) (d : SourceDoc) (items : List PageItem)
    (h : ingestFile decodePdf f docId pageIds now = Except.ok (d, items)) :
    d.id = docId ∧ ∀ p ∈ items, p.docId = docId := by
  cases hdec : decodePdf f.bytes with
  | none => simp only [ingestFile, hdec] at h; cases h
  | some outs =>
    simp only [ingestFile, hdec] at h
    cases hr : renderThumbnails outs pageIds docId f.name 1 with
    | error e => rw [hr] at h; cases h
    | ok its =>
      rw [hr] at h
      simp only [Except.ok.injEq, Prod.mk.injEq] at h
      obtain ⟨hd, hi⟩ := h
      subst hd
      subst hi
      exact ⟨rfl, renderThumbnails_docId outs pageIds docId f.name 1 its hr⟩

theorem ingestFile_ok_spec (decodePdf : Decoder) (f : UploadFile) (docId : String)
    (pageIds : List String) (now : Nat) (pdfPages : List RenderOutcome)
    (hdec : decodePdf f.bytes = some pdfPages)
    (hok : ∀ o ∈ pdfPages, o ≠ RenderOutcome.fail)
    (hlen : pageIds.length = pdfPages.length) :
    ∃ items, ingestFile decodePdf f docId pageIds now =
      Except.ok ({ id := docId, name := f.name, size := f.size,
                   lastModified := f.lastModified, pageCount := pdfPages.length,
                   data := f.bytes, addedAt := now }, items) ∧
      items.map PageItem.id = pageIds ∧
      items.map PageItem.docId = List.replicate pdfPages.length docId ∧
      items.map PageItem.pageNumber = List.range' 1 pdfPages.length := by
  obtain ⟨items, hr, h1, h2, h3⟩ :=
    renderThumbnails_ok_spec pdfPages pageIds docId f.name 1 hok hlen
  exact ⟨items, by simp only [ingestFile, hdec, hr], h1, h2, h3⟩

theorem ingestFile_error_of_decode_none (decodePdf : Decoder) (f : UploadFile)
    (docId : String) (pageIds : List String) (now : Nat)
    (hdec : decodePdf f.bytes = none) :
    ingestFile decodePdf f docId pageIds now = Except.error () := by
  simp only [ingestFile, hdec]

theorem ingestFile_error_of_render_fail (decodePdf : Decoder) (f : UploadFile)
    (docId : String) (pageIds : List String) (now : Nat) (outs : List RenderOutcome)
    (hdec : decodePdf f.bytes = some outs) (hfail : RenderOutcome.fail ∈ outs) :
    ingestFile decodePdf f docId pageIds now = Except.error () := by
  simp only [ingestFile, hdec,
    renderThumbnails_fail outs pageIds docId f.name 1 hfail]

theorem ingestBatchLoop_error_of_file (decodePdf : Decoder) (now : Nat)
    (f : UploadFile)
    (herr : ∀ docId pageIds, ingestFile decodePdf f docId pageIds now = Except.error ()) :
    ∀ (files : List UploadFile) (idPlan : List (String × List String)), f ∈ files →
      ingestBatchLoop decodePdf now files idPlan = Except.error () := by
  intro files
  induction files with
  | nil => intro idPlan h; simp at h
  | cons g gs ih =>
    intro idPlan h
    rcases List.mem_cons.mp h with h1 | h1
    · subst h1
      simp only [ingestBatchLoop, herr]
    · cases hg : ingestFile decodePdf g (idPlan.headD ("", [])).1 (idPlan.headD ("", [])).2 now with
      | error e => simp only [ingestBatchLoop, hg]
      | ok dp => simp only [ingestBatchLoop, hg, ih idPlan.tail h1]

theorem handleFiles_batchFailed (decodePdf : Decoder) (now : Nat) (w : Workspace)
    (files : List UploadFile) (idPlan : List (String × List String)) (f : UploadFile)
    (hf : f ∈ files.filter isPdf)
    (herr : ∀ docId pageIds, ingestFile decodePdf f docId pageIds now = Except.error ()) :
    handleFiles decodePdf now w files idPlan = (w, BatchOutcome.batchFailed) := by
  have hne : (files.filter isPdf).isEmpty = false := by
    cases he : files.filter isPdf with
    | nil => rw [he] at hf; simp at hf
    | cons a l => simp [he]
  simp only [handleFiles, hne, Bool.false_eq_true, if_false,
    ingestBatchLoop_error_of_file decodePdf now f herr (files.filter isPdf) idPlan hf]

theorem ingestBatchLoop_coverage (decodePdf : Decoder) (now : Nat) :
    ∀ (files : List UploadFile) (idPlan : List (String × List String))
      (ds : List SourceDoc) (ps : List PageItem),
      ingestBatchLoop decodePdf now files idPlan = Except.ok (ds, ps) →
      ∀ p ∈ ps, ∃ d ∈ ds, d.id = p.docId := by
  intro files
  induction files with
  | nil =>
    intro idPlan ds ps h p hp
    simp only [ingestBatchLoop, Except.ok.injEq, Prod.mk.injEq] at h
    obtain ⟨h1, h2⟩ := h
    subst h2
    simp at hp
  | cons g gs ih =>
    intro idPlan ds ps h p hp
    simp only [ingestBatchLoop] at h
    cases hg : ingestFile decodePdf g (idPlan.headD ("", [])).1 (idPlan.headD ("", [])).2 now with
    | error e => rw [hg] at h; cases h
    | ok dp =>
      obtain ⟨d0, ps0⟩ := dp
      rw [hg] at h
      cases hrec : ingestBatchLoop decodePdf now gs idPlan.tail with
      | error e => rw [hrec] at h; cases h
      | ok dsps =>
        obtain ⟨ds1, ps1⟩ := dsps
        rw [hrec] at h
        simp only [Except.ok.injEq, Prod.mk.injEq] at h
        obtain ⟨h1, h2⟩ := h
        subst h1
        subst h2
        obtain ⟨hid, hpid⟩ := ingestFile_docId decodePdf g _ _ now d0 ps0 hg
        rcases List.mem_append.mp hp with h1 | h1
        · exact ⟨d0, List.mem_cons_self _ _, by rw [hid, hpid p h1]⟩
        · obtain ⟨d, hd, he⟩ := ih idPlan.tail ds1 ps1 hrec p h1
          exact ⟨d, List.mem_cons_of_mem _ hd, he⟩

/-! ### Claim theorems -/

/-- C3, counterexample: calling the export resolver with an empty ordered
page sequence does NOT fail with a ComposeError — it is a silent early
return (`if (!pages.length) return`), distinct from the error branch
(the `catch` that reports the compose failure) and from any download. -/
theorem compose_empty_silent_cex :
    mergeAndDownload [] [] "report" false = MergeOutcome.idle ∧
    MergeOutcome.idle ≠ MergeOutcome.composeFailed ∧
    ∀ fn out, MergeOutcome.idle ≠ MergeOutcome.downloaded fn out := by
  refine ⟨rfl, fun h => MergeOutcome.noConfusion h,
    fun fn out h => MergeOutcome.noConfusion h⟩

/-- C3 (amended): calling compose on a workspace snapshot whose ordered
page sequence is empty is a silent no-op: it produces no output bytes
(no file is produced or offered for download), and no error is raised
or reported. -/
theorem compose_empty_noop (docs : List SourceDoc) (name : String) (saveFails : Bool) :
    mergeAndDownload docs [] name saveFails = MergeOutcome.idle ∧
    ∀ fn out, mergeAndDownload docs [] name saveFails ≠ MergeOutcome.downloaded fn out := by
  refine ⟨rfl, fun fn out h => MergeOutcome.noConfusion h⟩

/-- C4: on a non-empty ordered page sequence, compose downloads an output
document whose pages are, in order, exactly the pages denoted by the
ordered PageReference sequence — each reference contributing the page at
`pageNumber - 1` of its owning document's byte payload, references whose
owning document is missing being skipped; the output is determined solely
by the ordered sequence, and the sources are threaded read-only. -/
theorem compose_order_fidelity (docs : List SourceDoc) (pages : List PageItem)
    (name : String) (h : pages ≠ []) :
    mergeAndDownload docs pages name false =
      MergeOutcome.downloaded (safeName name ++ ".pdf")
        (pages.filterMap fun p => (docLookup docs p.docId).map
          fun d => CopiedPage.mk d.data (p.pageNumber - 1)) := by
  have hout := foldl_composeStep_out docs pages ⟨[], [], []⟩
  simp only [mergeAndDownload, List.isEmpty_iff, if_neg h, if_neg Bool.false_ne_true,
    composeLoop] at *
  rw [hout]
  rfl

/-- C4 witness: the spec §8 example — pages `[p1@docA#2, p2@docB#1,
p3@docA#1]` compose to page 2 of docA, page 1 of docB, page 1 of docA. -/
theorem compose_order_fidelity_witness :
    mergeAndDownload
      [⟨"A", "docA.pdf", 9, 0, 3, [10], 0⟩, ⟨"B", "docB.pdf", 9, 0, 2, [20], 0⟩]
      [⟨"p1", "A", "docA.pdf", 2, "t1"⟩, ⟨"p2", "B", "docB.pdf", 1, "t2"⟩,
       ⟨"p3", "A", "docA.pdf", 1, "t3"⟩] "out" false =
      MergeOutcome.downloaded "out.pdf" [⟨[10], 1⟩, ⟨[20], 0⟩, ⟨[10], 0⟩] := by
  have h := compose_order_fidelity
    [⟨"A", "docA.pdf", 9, 0, 3, [10], 0⟩, ⟨"B", "docB.pdf", 9, 0, 2, [20], 0⟩]
    [⟨"p1", "A", "docA.pdf", 2, "t1"⟩, ⟨"p2", "B", "docB.pdf", 1, "t2"⟩,
     ⟨"p3", "A", "docA.pdf", 1, "t3"⟩] "out" (by decide)
  rw [h]
  decide

/-- C5: `removeDocument(d)` removes the SourceDocument with identifier `d`
and every PageReference owned by it; the remaining references keep their
relative order (sublist of the original); if `d` is absent (and the
workspace invariant holds, so no page references `d` either) the
operation is a no-op, not an error. -/
theorem removeDocument_spec (w : Workspace) (d : String) :
    (∀ p ∈ (deleteDoc w d).pages, p.docId ≠ d) ∧
    (∀ dd ∈ (deleteDoc w d).docs, dd.id ≠ d) ∧
    (deleteDoc w d).pages.Sublist w.pages ∧
    (deleteDoc w d).docs.Sublist w.docs ∧
    ((∀ dd ∈ w.docs, dd.id ≠ d) →
      (∀ p ∈ w.pages, ∃ dd ∈ w.docs, dd.id = p.docId) → deleteDoc w d = w) := by
  refine ⟨?_, ?_, ?_, ?_, ?_⟩
  · intro p hp
    have := (List.mem_filter.mp hp).2
    simpa using this
  · intro dd hdd
    have := (List.mem_filter.mp hdd).2
    simpa using this
  · exact List.filter_sublist _
  · exact List.filter_sublist _
  · intro hdocs hinv
    have hp : ∀ p ∈ w.pages, (p.docId != d) = true := by
      intro p hp
      obtain ⟨dd, hdd, he⟩ := hinv p hp
      simpa using he ▸ hdocs dd hdd
    have hd : ∀ dd ∈ w.docs, (dd.id != d) = true := by
      intro dd hdd
      simpa using hdocs dd hdd
    show Workspace.mk _ _ = w
    rw [List.filter_eq_self.mpr hd, List.filter_eq_self.mpr hp]

/-- C5 witness: deleting document `A` from a two-document workspace drops
doc `A` and both of its pages, keeps doc `B` and its page in order, and
deleting an absent id is a no-op. -/
theorem removeDocument_spec_witness :
    (∀ p ∈ (deleteDoc ⟨[⟨"A", "a.pdf", 1, 0, 2, [1], 0⟩, ⟨"B", "b.pdf", 1, 0, 1, [2], 0⟩],
        [⟨"p1", "A", "a.pdf", 1, "t"⟩, ⟨"p2", "B", "b.pdf", 1, "t"⟩,
         ⟨"p3", "A", "a.pdf", 2, "t"⟩]⟩ "A").pages, p.docId ≠ "A") ∧
    deleteDoc ⟨[⟨"A", "a.pdf", 1, 0, 2, [1], 0⟩, ⟨"B", "b.pdf", 1, 0, 1, [2], 0⟩],
        [⟨"p1", "A", "a.pdf", 1, "t"⟩, ⟨"p2", "B", "b.pdf", 1, "t"⟩,
         ⟨"p3", "A", "a.pdf", 2, "t"⟩]⟩ "missing" =
      ⟨[⟨"A", "a.pdf", 1, 0, 2, [1], 0⟩, ⟨"B", "b.pdf", 1, 0, 1, [2], 0⟩],
        [⟨"p1", "A", "a.pdf", 1, "t"⟩, ⟨"p2", "B", "b.pdf", 1, "t"⟩,
         ⟨"p3", "A", "a.pdf", 2, "t"⟩]⟩ := by
  constructor
  · exact (removeDocument_spec _ "A").1
  · exact (removeDocument_spec
      ⟨[⟨"A", "a.pdf", 1, 0, 2, [1], 0⟩, ⟨"B", "b.pdf", 1, 0, 1, [2], 0⟩],
        [⟨"p1", "A", "a.pdf", 1, "t"⟩, ⟨"p2", "B", "b.pdf", 1, "t"⟩,
         ⟨"p3", "A", "a.pdf", 2, "t"⟩]⟩ "missing").2.2.2.2
      (by decide) (by decide)

/-- C8: during compose, each referenced SourceDocument is decoded
(`PDFDocument.load`) at most once — the trace of load calls is
duplicate-free — and every load is for a document referenced by some
page of the ordered sequence. -/
theorem compose_decodes_once (docs : List SourceDoc) (pages : List PageItem) :
    (composeLoop docs pages).loads.Nodup ∧
    ∀ i ∈ (composeLoop docs pages).loads, ∃ p ∈ pages, p.docId = i := by
  obtain ⟨h1, h2, h3⟩ :=
    foldl_composeStep_loads docs pages ⟨[], [], []⟩ rfl List.nodup_nil
  refine ⟨?_, ?_⟩
  · rw [show (composeLoop docs pages).loads =
      (pages.foldl (composeStep docs) ⟨[], [], []⟩).loads from rfl, h1]
    exact h2
  · intro i hi
    rcases h3 i hi with h | h
    · simp at h
    · exact h

/-- C9: the export trigger produces exactly one downloadable file named
`safeName + ".pdf"`, where the sanitized name contains no whitespace
(every whitespace run is replaced) and the default name is used when
the free-text output name is empty. -/
theorem merge_filename_spec (docs : List SourceDoc) (pages : List PageItem)
    (name : String) (h : pages ≠ []) :
    mergeAndDownload docs pages name false =
      MergeOutcome.downloaded (safeName name ++ ".pdf") (composeLoop docs pages).out ∧
    (∀ c ∈ (safeName name).data, isWs c = false) ∧
    (name = "" → safeName name = "merged-document") := by
  refine ⟨?_, ?_, ?_⟩
  · simp only [mergeAndDownload, List.isEmpty_iff, if_neg h, if_neg Bool.false_ne_true]
  · intro c hc
    exact replaceWsAux_no_ws _ false c hc
  · intro he
    subst he
    decide

/-- C9 witness: exporting with free-text name `"my  annual report"` on a
one-page workspace downloads a single file named `my-annual-report.pdf`;
the empty name falls back to `merged-document`. -/
theorem merge_filename_spec_witness :
    mergeAndDownload [⟨"A", "a.pdf", 1, 0, 1, [1], 0⟩]
        [⟨"p1", "A", "a.pdf", 1, "t"⟩] "my  annual report" false =
      MergeOutcome.downloaded "my-annual-report.pdf"
        (composeLoop [⟨"A", "a.pdf", 1, 0, 1, [1], 0⟩]
          [⟨"p1", "A", "a.pdf", 1, "t"⟩]).out ∧
    safeName "" = "merged-document" := by
  have h := merge_filename_spec [⟨"A", "a.pdf", 1, 0, 1, [1], 0⟩]
    [⟨"p1", "A", "a.pdf", 1, "t"⟩] "my  annual report" (by decide)
  refine ⟨?_, by decide⟩
  rw [h.1]
  decide

/-- C6: reorder is a single-element move — the reordered sequence is a
permutation of the original in which every reference other than the
dragged one keeps its relative order; dropping a reference on itself is
a no-op, and the operation is a no-op when either endpoint lookup fails. -/
theorem reorder_move_spec (pages : List PageItem) (activeId overId : String) :
    (onDragEnd pages activeId overId).Perm pages ∧
    (onDragEnd pages activeId overId).filter (fun q => q.id != activeId) =
      pages.filter (fun q => q.id != activeId) ∧
    onDragEnd pages activeId activeId = pages ∧
    (pages.findIdx? (fun p => p.id == activeId) = none →
      onDragEnd pages activeId overId = pages) ∧
    (pages.findIdx? (fun p => p.id == overId) = none →
      onDragEnd pages activeId overId = pages) := by
  refine ⟨?_, ?_, by simp [onDragEnd], ?_, ?_⟩
  · unfold onDragEnd
    by_cases hao : activeId = overId
    · simp [hao]
    · rw [if_neg (by simpa using hao)]
      cases ha : pages.findIdx? (fun p => p.id == activeId) with
      | none => exact List.Perm.refl pages
      | some i =>
        cases ho : pages.findIdx? (fun p => p.id == overId) with
        | none => exact List.Perm.refl pages
        | some j => exact arrayMove_perm pages i j (findIdx?_lt_length ho)
  · unfold onDragEnd
    by_cases hao : activeId = overId
    · simp [hao]
    · rw [if_neg (by simpa using hao)]
      cases ha : pages.findIdx? (fun p => p.id == activeId) with
      | none => rfl
      | some i =>
        cases ho : pages.findIdx? (fun p => p.id == overId) with
        | none => rfl
        | some j =>
          obtain ⟨x, hx, hpx⟩ := get?_of_findIdx? ha
          refine arrayMove_filter pages i j x _ hx ?_
          simp only [bne_eq_false_iff_eq]
          exact beq_iff_eq.mp hpx
  · intro ha
    unfold onDragEnd
    by_cases hao : activeId = overId
    · simp [hao]
    · rw [if_neg (by simpa using hao), ha]
  · intro ho
    unfold onDragEnd
    by_cases hao : activeId = overId
    · simp [hao]
    · rw [if_neg (by simpa using hao), ho]
      cases pages.findIdx? (fun p => p.id == activeId) <;> rfl

/-- C6 witness: in a four-page workspace, dragging `p2` onto `p4` yields
`[p1, p3, p4, p2]` — a move (a swap would have produced `[p1, p4, p3, p2]`)
— and the result is a permutation with the other pages' order intact. -/
theorem reorder_move_spec_witness :
    (onDragEnd [⟨"p1", "A", "a", 1, "t"⟩, ⟨"p2", "A", "a", 2, "t"⟩,
        ⟨"p3", "A", "a", 3, "t"⟩, ⟨"p4", "A", "a", 4, "t"⟩] "p2" "p4").Perm
      [⟨"p1", "A", "a", 1, "t"⟩, ⟨"p2", "A", "a", 2, "t"⟩,
        ⟨"p3", "A", "a", 3, "t"⟩, ⟨"p4", "A", "a", 4, "t"⟩] ∧
    onDragEnd [⟨"p1", "A", "a", 1, "t"⟩, ⟨"p2", "A", "a", 2, "t"⟩,
        ⟨"p3", "A", "a", 3, "t"⟩, ⟨"p4", "A", "a", 4, "t"⟩] "p2" "p4" =
      [⟨"p1", "A", "a", 1, "t"⟩, ⟨"p3", "A", "a", 3, "t"⟩,
        ⟨"p4", "A", "a", 4, "t"⟩, ⟨"p2", "A", "a", 2, "t"⟩] := by
  exact ⟨(reorder_move_spec _ "p2" "p4").1, by decide⟩

/-- C1, counterexample: in a batch of three PDFs where the second fails
to decode, the claim predicts files 1 and 3 are accepted; the code
instead commits NOTHING — `handleFiles` buffers the whole batch and the
throw from file 2 skips the `setDocs`/`setPages` append, so the
workspace stays empty and a single batch-level warning toast fires. -/
theorem batch_partial_failure_cex :
    handleFiles (fun bs => if bs = [2] then none else some [RenderOutcome.ok "t"]) 0
      ⟨[], []⟩
      [⟨"one.pdf", "application/pdf", 1, 0, [1]⟩,
       ⟨"two.pdf", "application/pdf", 1, 0, [2]⟩,
       ⟨"three.pdf", "application/pdf", 1, 0, [3]⟩]
      [("d1", ["q1"]), ("d2", ["q2"]), ("d3", ["q3"])] =
      (⟨[], []⟩, BatchOutcome.batchFailed) ∧
    (handleFiles (fun bs => if bs = [2] then none else some [RenderOutcome.ok "t"]) 0
      ⟨[], []⟩
      [⟨"one.pdf", "application/pdf", 1, 0, [1]⟩,
       ⟨"two.pdf", "application/pdf", 1, 0, [2]⟩,
       ⟨"three.pdf", "application/pdf", 1, 0, [3]⟩]
      [("d1", ["q1"]), ("d2", ["q2"]), ("d3", ["q3"])]).1.docs.length ≠ 2 := by
  exact ⟨by decide, by decide⟩

/-- C1 (amended): ingestion is batch-atomic, not per-file atomic — if any
file in a batch fails to decode, the ENTIRE batch is dropped: no file in
the batch (before or after the failing one) is appended, the workspace is
left unchanged, and the failure is reported as a single batch-level
warning rather than a fatal error. -/
theorem handleFiles_allOrNothing (decodePdf : Decoder) (now : Nat) (w : Workspace)
    (files : List UploadFile) (idPlan : List (String × List String)) (f : UploadFile)
    (hf : f ∈ files.filter isPdf) (hdec : decodePdf f.bytes = none) :
    handleFiles decodePdf now w files idPlan = (w, BatchOutcome.batchFailed) :=
  handleFiles_batchFailed decodePdf now w files idPlan f hf
    (fun docId pageIds => ingestFile_error_of_decode_none decodePdf f docId pageIds now hdec)

/-- C1 witness: a non-empty workspace hit with a three-file batch whose
middle file fails to decode stays exactly as it was. -/
theorem handleFiles_allOrNothing_witness :
    handleFiles (fun bs => if bs = [9] then none else some [RenderOutcome.ok "t"]) 0
      ⟨[⟨"d0", "old.pdf", 1, 0, 1, [0], 0⟩], [⟨"q0", "d0", "old.pdf", 1, "t"⟩]⟩
      [⟨"a.pdf", "application/pdf", 1, 0, [8]⟩,
       ⟨"b.pdf", "application/pdf", 1, 0, [9]⟩,
       ⟨"c.pdf", "application/pdf", 1, 0, [10]⟩]
      [("d1", ["q1"]), ("d2", ["q2"]), ("d3", ["q3"])] =
      (⟨[⟨"d0", "old.pdf", 1, 0, 1, [0], 0⟩], [⟨"q0", "d0", "old.pdf", 1, "t"⟩]⟩,
        BatchOutcome.batchFailed) := by
  exact handleFiles_allOrNothing _ 0 _ _ _
    ⟨"b.pdf", "application/pdf", 1, 0, [9]⟩ (by decide) (by decide)

/-- C2, counterexample: a file whose second page fails to render produces
NO PageReference at all — the claim predicts a previewless PageReference
for page 2 (and references for pages 1 and 3); the code's
`renderThumbnails` throws instead, aborting the file (and the batch), so
the page list stays empty. -/
theorem render_fail_page_cex :
    handleFiles
      (fun _ => some [RenderOutcome.ok "a", RenderOutcome.fail, RenderOutcome.ok "c"]) 0
      ⟨[], []⟩ [⟨"doc.pdf", "application/pdf", 3, 0, [7]⟩] [("d1", ["q1", "q2", "q3"])] =
      (⟨[], []⟩, BatchOutcome.batchFailed) ∧
    (handleFiles
      (fun _ => some [RenderOutcome.ok "a", RenderOutcome.fail, RenderOutcome.ok "c"]) 0
      ⟨[], []⟩ [⟨"doc.pdf", "application/pdf", 3, 0, [7]⟩]
      [("d1", ["q1", "q2", "q3"])]).1.pages = [] := by
  exact ⟨by decide, by decide⟩

/-- C2 (amended): if rendering the preview of any one page fails, no
PageReference for that file is created at all — the render error
propagates out of `renderThumbnails`, aborting the file's ingestion (and
with it the whole batch); the workspace is unchanged and the failure is
surfaced as a batch-level warning, not as a previewless page. -/
theorem renderFail_aborts_file (decodePdf : Decoder) (now : Nat) (w : Workspace)
    (files : List UploadFile) (idPlan : List (String × List String)) (f : UploadFile)
    (outs : List RenderOutcome) (hf : f ∈ files.filter isPdf)
    (hdec : decodePdf f.bytes = some outs) (hfail : RenderOutcome.fail ∈ outs) :
    handleFiles decodePdf now w files idPlan = (w, BatchOutcome.batchFailed) :=
  handleFiles_batchFailed decodePdf now w files idPlan f hf
    (fun docId pageIds =>
      ingestFile_error_of_render_fail decodePdf f docId pageIds now outs hdec hfail)

/-- C2 witness: one three-page PDF whose middle page fails to render
leaves a non-empty workspace untouched. -/
theorem renderFail_aborts_file_witness :
    handleFiles
      (fun _ => some [RenderOutcome.ok "a", RenderOutcome.fail, RenderOutcome.ok "c"]) 0
      ⟨[⟨"d0", "old.pdf", 1, 0, 1, [0], 0⟩], [⟨"q0", "d0", "old.pdf", 1, "t"⟩]⟩
      [⟨"doc.pdf", "application/pdf", 3, 0, [7]⟩] [("d1", ["q1", "q2", "q3"])] =
      (⟨[⟨"d0", "old.pdf", 1, 0, 1, [0], 0⟩], [⟨"q0", "d0", "old.pdf", 1, "t"⟩]⟩,
        BatchOutcome.batchFailed) := by
  exact renderFail_aborts_file _ 0 _ _ _ ⟨"doc.pdf", "application/pdf", 3, 0, [7]⟩
    [RenderOutcome.ok "a", RenderOutcome.fail, RenderOutcome.ok "c"]
    (by decide) rfl (by decide)

/-- C7: every workspace operation (batch ingestion append, cascading
document delete, single page delete, drag reorder, reset) preserves the
workspace invariant: every PageReference's owning-document identifier
refers to a SourceDocument currently in the set, and the ordered page
sequence has no duplicate PageReference identifiers. -/
theorem workspace_invariant_preserved (decodePdf : Decoder) (now : Nat)
    (w w' : Workspace) (hw : Inv w) (hstep : WStep decodePdf now w w') : Inv w' := by
  obtain ⟨hw1, hw2⟩ := hw
  cases hstep with
  | add files idPlan hfresh =>
    simp only [handleFiles]
    by_cases hinc : (files.filter isPdf).isEmpty
    · rw [if_pos hinc]
      exact ⟨hw1, hw2⟩
    · rw [if_neg hinc]
      cases hloop : ingestBatchLoop decodePdf now (files.filter isPdf) idPlan with
      | error e => exact ⟨hw1, hw2⟩
      | ok dsps =>
        obtain ⟨ds, ps⟩ := dsps
        obtain ⟨hnodup, hdisj⟩ := hfresh ds ps hloop
        refine ⟨?_, ?_⟩
        · intro p hp
          rcases List.mem_append.mp hp with h | h
          · obtain ⟨d, hd, he⟩ := hw1 p h
            exact ⟨d, List.mem_append_left _ hd, he⟩
          · obtain ⟨d, hd, he⟩ := ingestBatchLoop_coverage decodePdf now
              (files.filter isPdf) idPlan ds ps hloop p h
            exact ⟨d, List.mem_append_right _ hd, he⟩
        · show ((w.pages ++ ps).map PageItem.id).Nodup
          rw [List.map_append, List.nodup_append]
          exact ⟨hw2, hnodup, fun a ha hb => hdisj a hb ha⟩
  | removeDoc docId =>
    refine ⟨?_, ?_⟩
    · intro p hp
      have hmem := List.mem_filter.mp hp
      obtain ⟨d, hd, he⟩ := hw1 p hmem.1
      exact ⟨d, List.mem_filter.mpr ⟨hd, he ▸ hmem.2⟩, he⟩
    · exact List.Nodup.sublist (List.Sublist.map _ (List.filter_sublist _)) hw2
  | removePage pageId =>
    refine ⟨?_, ?_⟩
    · intro p hp
      exact hw1 p (List.mem_filter.mp hp).1
    · exact List.Nodup.sublist (List.Sublist.map _ (List.filter_sublist _)) hw2
  | reorder activeId overId =>
    have hperm := onDragEnd_perm w.pages activeId overId
    refine ⟨?_, ?_⟩
    · intro p hp
      exact hw1 p (hperm.mem_iff.mp hp)
    · exact ((hperm.map PageItem.id).nodup_iff).mpr hw2
  | reset =>
    exact ⟨fun p hp => absurd hp (List.not_mem_nil p), List.nodup_nil⟩

/-- C7 witness: the invariant survives a cascading delete on a concrete
two-document workspace. -/
theorem workspace_invariant_preserved_witness :
    Inv (deleteDoc ⟨[⟨"A", "a.pdf", 1, 0, 1, [1], 0⟩, ⟨"B", "b.pdf", 1, 0, 1, [2], 0⟩],
      [⟨"p1", "A", "a.pdf", 1, "t"⟩, ⟨"p2", "B", "b.pdf", 1, "t"⟩]⟩ "A") := by
  exact workspace_invariant_preserved (fun _ => none) 0 _ _ (by decide)
    (WStep.removeDoc "A")

/-- C10: ingestion never deduplicates — re-ingesting a file with the same
name and bytes as an existing SourceDocument (with nanoid handing out a
fresh id) appends a second, independent SourceDocument whose identifier
differs from the existing copy's, together with a fresh run of
PageReferences (owned by the new id, numbered 1..pageCount) at the end of
the ordered sequence; both copies coexist in the workspace. -/
theorem ingest_no_dedup (decodePdf : Decoder) (now : Nat) (w : Workspace)
    (f : UploadFile) (d0 : SourceDoc) (newId : String) (pids : List String)
    (pdfPages : List RenderOutcome)
    (hd0 : d0 ∈ w.docs) (hname : d0.name = f.name) (hdata : d0.data = f.bytes)
    (hpdf : isPdf f = true) (hdec : decodePdf f.bytes = some pdfPages)
    (hok : ∀ o ∈ pdfPages, o ≠ RenderOutcome.fail)
    (hlen : pids.length = pdfPages.length)
    (hfresh : ∀ dd ∈ w.docs, dd.id ≠ newId) :
    ∃ ps, handleFiles decodePdf now w [f] [(newId, pids)] =
        ({ docs := w.docs ++ [⟨newId, f.name, f.size, f.lastModified,
             pdfPages.length, f.bytes, now⟩],
           pages := w.pages ++ ps }, BatchOutcome.added 1) ∧
      ps.map PageItem.docId = List.replicate pdfPages.length newId ∧
      ps.map PageItem.pageNumber = List.range' 1 pdfPages.length ∧
      newId ≠ d0.id ∧
      d0 ∈ w.docs ++ [⟨newId, f.name, f.size, f.lastModified,
        pdfPages.length, f.bytes, now⟩] := by
  obtain ⟨items, hok', h1, h2, h3⟩ :=
    ingestFile_ok_spec decodePdf f newId pids now pdfPages hdec hok hlen
  have hfilter : [f].filter isPdf = [f] := by
    simp [List.filter, hpdf]
  have hloop : ingestBatchLoop decodePdf now [f] [(newId, pids)] =
      Except.ok ([⟨newId, f.name, f.size, f.lastModified,
        pdfPages.length, f.bytes, now⟩], items) := by
    simp only [ingestBatchLoop, List.headD_cons, hok', List.tail_cons, List.append_nil]
  refine ⟨items, ?_, h2, h3, Ne.symm (hfresh d0 hd0), List.mem_append_left _ hd0⟩
  simp only [handleFiles, hfilter, List.isEmpty_cons, Bool.false_eq_true, if_false, hloop,
    List.length_singleton]

/-- C10 witness: a workspace already holding `x.pdf` (as doc `d1`)
re-ingests a byte-identical `x.pdf`; a second document `d2` with the same
name and bytes is appended alongside, with its own page run. -/
theorem ingest_no_dedup_witness :
    ∃ ps, handleFiles (fun _ => some [RenderOutcome.ok "t"]) 7
        ⟨[⟨"d1", "x.pdf", 1, 0, 1, [5], 3⟩], [⟨"q1", "d1", "x.pdf", 1, "t"⟩]⟩
        [⟨"x.pdf", "application/pdf", 1, 0, [5]⟩] [("d2", ["q2"])] =
        ({ docs := [⟨"d1", "x.pdf", 1, 0, 1, [5], 3⟩] ++
             [⟨"d2", "x.pdf", 1, 0, 1, [5], 7⟩],
           pages := [⟨"q1", "d1", "x.pdf", 1, "t"⟩] ++ ps }, BatchOutcome.added 1) ∧
      ps.map PageItem.docId = List.replicate 1 "d2" ∧
      ps.map PageItem.pageNumber = List.range' 1 1 ∧
      "d2" ≠ "d1" ∧
      (⟨"d1", "x.pdf", 1, 0, 1, [5], 3⟩ : SourceDoc) ∈
        [⟨"d1", "x.pdf", 1, 0, 1, [5], 3⟩] ++ [⟨"d2", "x.pdf", 1, 0, 1, [5], 7⟩] := by
  exact ingest_no_dedup (fun _ => some [RenderOutcome.ok "t"]) 7
    ⟨[⟨"d1", "x.pdf", 1, 0, 1, [5], 3⟩], [⟨"q1", "d1", "x.pdf", 1, "t"⟩]⟩
    ⟨"x.pdf", "application/pdf", 1, 0, [5]⟩ ⟨"d1", "x.pdf", 1, 0, 1, [5], 3⟩
    "d2" ["q2"] [RenderOutcome.ok "t"]
    (by decide) rfl rfl (by decide) rfl (by decide) rfl (by decide)

end Alces
